import Mathlib

/-!
Verification of the change-reconciliation and apply logic of
`src/Streamlit.py` (a Streamlit + Snowflake table editor).

The embedding models:
* a pandas DataFrame cell value as `Value` (string, integer, or one of the
  two missing-value markers `nan` / `null` that `pd.isna` recognises);
* a DataFrame row as a total function from column name to `Value`
  (a pandas row always yields a value for every column, with NaN standing
  for an absent cell);
* a DataFrame as `Snapshot` (ordered column list plus ordered row list);
* `update_changed_cells`, `get_data` and `add_column_to_snowflake` as
  functions that also return the trace of database events they perform,
  with database failures supplied by explicit oracles.
-/

/-- A scalar cell value as pandas hands it to the diff loop.  `nan` models
`float` NaN and `null` models Python `None`; both satisfy `pd.isna`. -/
inductive Value where
  | str (s : String)
  | num (n : Int)
  | nan
  | null
deriving DecidableEq, Repr

/-- Python's `pd.isna`: true exactly on the missing-value markers. -/
def Value.isna : Value → Bool
  | .nan => true
  | .null => true
  | _ => false

/-- Python's `!=` on scalar cell values: NaN compares unequal to
everything (itself included); all other values compare structurally
(values of different types are simply unequal, as in Python). -/
def pyNe (a b : Value) : Bool :=
  match a, b with
  | .nan, _ => true
  | _, .nan => true
  | a, b => decide (a ≠ b)

/-- A row of a snapshot: column name to cell value.  Pandas rows are total
over the frame's columns; a genuinely absent cell is the `nan` marker. -/
def Row : Type := String → Value

/-- A table snapshot: the frame's column order and its rows in positional
order (`reset_index(drop=True)` is applied before the diff, so rows are
addressed purely positionally). -/
structure Snapshot where
  cols : List String
  rows : List Row

/-- One detected cell-level change, as built at lines 74-78 of the source:
`key` is `original_row[unique_col]`, `column` the changed column, and
`new_value` the edited snapshot's value. -/
structure CellChange where
  key : Value
  column : String
  new_value : Value
deriving DecidableEq, Repr

/-- The inner column loop (lines 66-70): for each column of the original
frame, skip when both cells are missing (`pd.isna` on both), otherwise
record the edited value when the two cells compare unequal. -/
def rowChanges (cols : List String) (o e : Row) : List (String × Value) :=
  cols.filterMap fun c =>
    if (o c).isna && (e c).isna then none
    else if pyNe (o c) (e c) then some (c, e c)
    else none

/-- A cell counts as changed when it is not missing on both sides and the
two values compare unequal — exactly the condition under which the inner
loop records it. -/
def cellChanged (o e : Row) (c : String) : Bool :=
  !((o c).isna && (e c).isna) && pyNe (o c) (e c)

/-- The `CellChange` records contributed by one row pair (lines 71-78):
each recorded column becomes a change keyed by the original row's value of
the unique column. -/
def rowCellChanges (cols : List String) (uc : String) (o e : Row) : List CellChange :=
  (rowChanges cols o e).map fun p => ⟨o uc, p.1, p.2⟩

/-- The contribution of one row pair to `updated_keys` (line 72): the
original row's unique-column value, added only when the row produced at
least one change. -/
def rowKeys (cols : List String) (uc : String) (o e : Row) : List Value :=
  if rowChanges cols o e = [] then [] else [o uc]

/-- The outer row loop (lines 62-78).  It walks the original rows
positionally; reading `edited_df.loc[i]` past the end of the edited frame
raises a `KeyError`, modelled as `.error i` carrying the failing index.
On success it returns the accumulated change list together with the list
of keys of the rows that contributed (the source's `updated_keys` set,
kept here as a list and counted after deduplication). -/
def reconcileRows (cols : List String) (uc : String) :
    Nat → List Row → List Row → Except Nat (List CellChange × List Value)
  | _, [], _ => .ok ([], [])
  | i, _ :: _, [] => .error i
  | i, o :: os, e :: es =>
    match reconcileRows cols uc (i + 1) os es with
    | .error j => .error j
    | .ok (cs, ks) => .ok (rowCellChanges cols uc o e ++ cs, rowKeys cols uc o e ++ ks)

/-- The diff phase of `update_changed_cells` (lines 56-78): compare the two
snapshots positionally, column by column over the original frame's
columns. -/
def reconcile (orig edit : Snapshot) (uc : String) :
    Except Nat (List CellChange × List Value) :=
  reconcileRows orig.cols uc 0 orig.rows edit.rows

/-- One parameterized `UPDATE` statement as built at lines 85-90:
`UPDATE table SET column = %s WHERE uniqueCol = %s` with bound parameters
`(value, key)`. -/
structure Stmt where
  table : String
  column : String
  value : Value
  uniqueCol : String
  key : Value
deriving DecidableEq, Repr

/-- The statement built from one `CellChange` for one execute call. -/
def toStmt (table uc : String) (c : CellChange) : Stmt :=
  ⟨table, c.column, c.new_value, uc, c.key⟩

/-- Database/driver events an operation performs, in order. -/
inductive DbEvent where
  | openConn
  | closeConn
  | openCursor
  | closeCursor
  | execute (s : Stmt)
  | query (sql : String)
  | ddl (sql : String)
  | commit
deriving DecidableEq, Repr

/-- Streamlit messages the operations emit.  `success n` stands for
`st.success` with the text `"<n> row(s) updated."`; `err e` for `st.error`
with the driver's error text `e`; `info s` for `st.info s`; `colAdded c`
for the add-column success message. -/
inductive Msg where
  | success (rowsUpdated : Nat)
  | err (text : String)
  | info (text : String)
  | colAdded (name : String)
deriving DecidableEq, Repr

/-- An uncaught Python exception escaping an operation. -/
inductive PyErr where
  | keyError (i : Nat)
  | dbError (text : String)
deriving DecidableEq, Repr

/-- The outcome of one operation: the Streamlit messages emitted, the
database events performed, and the uncaught exception if one escaped. -/
structure RunResult where
  msgs : List Msg
  events : List DbEvent
  raised : Option PyErr
deriving DecidableEq, Repr

/-- The execute loop (lines 84-90).  `execFail k` supplies the driver
error, if any, raised by the `k`-th `cursor.execute`; a failing execute
performs no event and stops the loop.  Returns the events of the
successful executes and the error of the first failing one. -/
def execLoop (execFail : Nat → Option String) :
    Nat → List Stmt → List DbEvent × Option String
  | _, [] => ([], none)
  | k, s :: ss =>
    match execFail k with
    | some e => ([], some e)
    | none =>
      let r := execLoop execFail (k + 1) ss
      (DbEvent.execute s :: r.1, r.2)

/-- Modelled from the spec: the database driver (its code is not part of
this repository) provides transactional sessions — executed statements
take durable effect only when the connection commits, and closing a
connection without committing discards them.  This fold replays a trace:
executes accumulate as pending work, a commit makes the pending work
durable, closing discards what is still pending. -/
def committedStmts : List DbEvent → List Stmt → List Stmt → List Stmt
  | [], durable, _ => durable
  | DbEvent.execute s :: rest, durable, pending =>
    committedStmts rest durable (pending ++ [s])
  | DbEvent.commit :: rest, durable, pending =>
    committedStmts rest (durable ++ pending) []
  | _ :: rest, durable, pending => committedStmts rest durable pending

/-- `update_changed_cells` (lines 56-99), whole function.  The diff phase
may raise `KeyError` (positional lookup past the edited frame), in which
case nothing else happens.  With a non-empty change list the function
opens a connection and cursor, executes one statement per change, and on
full success commits once and reports `len(updated_keys)`; a failure of an
execute or of the commit is caught, reported as a single error message,
and the `finally` block closes the cursor and connection either way.  With
no changes it only emits the info message.  `execFail` and `commitFail`
are the driver-failure oracles (connection and cursor acquisition are
assumed to succeed). -/
def update_changed_cells (orig edit : Snapshot) (table uc : String)
    (execFail : Nat → Option String) (commitFail : Option String) : RunResult :=
  match reconcile orig edit uc with
  | .error i => ⟨[], [], some (.keyError i)⟩
  | .ok (changes, keys) =>
    if changes = [] then
      ⟨[Msg.info "No changes to save."], [], none⟩
    else
      let stmts := changes.map (toStmt table uc)
      let r := execLoop execFail 0 stmts
      match r.2 with
      | some e =>
        ⟨[Msg.err e],
         [DbEvent.openConn, DbEvent.openCursor] ++ r.1
           ++ [DbEvent.closeCursor, DbEvent.closeConn], none⟩
      | none =>
        match commitFail with
        | some e =>
          ⟨[Msg.err e],
           [DbEvent.openConn, DbEvent.openCursor] ++ r.1
             ++ [DbEvent.closeCursor, DbEvent.closeConn], none⟩
        | none =>
          ⟨[Msg.success keys.dedup.length],
           [DbEvent.openConn, DbEvent.openCursor] ++ r.1
             ++ [DbEvent.commit, DbEvent.closeCursor, DbEvent.closeConn], none⟩

/-- `get_data` (lines 49-53): open a connection, run the full-table
select, close the connection.  There is no try/finally: when the query
raises (`queryFail`), the exception propagates and `conn.close()` on line
52 is never reached. -/
def get_data (table : String) (queryFail : Option String) : RunResult :=
  match queryFail with
  | some e => ⟨[], [DbEvent.openConn], some (.dbError e)⟩
  | none =>
    ⟨[], [DbEvent.openConn, DbEvent.query ("SELECT * FROM " ++ table),
          DbEvent.closeConn], none⟩

/-- `add_column_to_snowflake` (lines 102-113): open connection and cursor
inside the try, execute the `ALTER TABLE` DDL, commit, and report success;
any driver error from the execute or the commit is caught and reported,
and the `finally` block closes cursor and connection on every path
(connection and cursor acquisition are assumed to succeed). -/
def add_column_to_snowflake (table col : String)
    (execFail commitFail : Option String) : RunResult :=
  let sql := "ALTER TABLE " ++ table ++ " ADD COLUMN " ++ col ++ " STRING"
  match execFail with
  | some e =>
    ⟨[Msg.err e],
     [DbEvent.openConn, DbEvent.openCursor, DbEvent.closeCursor,
      DbEvent.closeConn], none⟩
  | none =>
    match commitFail with
    | some e =>
      ⟨[Msg.err e],
       [DbEvent.openConn, DbEvent.openCursor, DbEvent.ddl sql,
        DbEvent.closeCursor, DbEvent.closeConn], none⟩
    | none =>
      ⟨[Msg.colAdded col],
       [DbEvent.openConn, DbEvent.openCursor, DbEvent.ddl sql, DbEvent.commit,
        DbEvent.closeCursor, DbEvent.closeConn], none⟩

/-- Page size of the grid (line 152). -/
def rows_per_page : Nat := 3

/-- The slice of the filtered rows shown on one page
(lines 159-161: `iloc[page*3 : page*3+3]`). -/
def df1_page (rows : List Row) (page : Nat) : List Row :=
  (rows.drop (page * rows_per_page)).take rows_per_page

/-- The save button's call site (lines 187-188): the reconciler is invoked
with the FULL filtered snapshot as the original and the grid's edited data
— which holds only the displayed page's rows — as the edited snapshot. -/
def saveAction (filtered : Snapshot) (editedPageRows : List Row)
    (execFail : Nat → Option String) (commitFail : Option String) : RunResult :=
  update_changed_cells filtered ⟨filtered.cols, editedPageRows⟩
    "SampleTest" "CODE" execFail commitFail

/-! ### Basic lemmas about the diff phase -/

theorem diff_step_self (r : Row) (c : String) :
    (if (r c).isna && (r c).isna then (none : Option (String × Value))
     else if pyNe (r c) (r c) then some (c, r c) else none) = none := by
  cases h : r c <;> simp [Value.isna, pyNe]

theorem rowChanges_self (cols : List String) (r : Row) :
    rowChanges cols r r = [] := by
  induction cols with
  | nil => rfl
  | cons c cs ih =>
    simp only [rowChanges, List.filterMap_cons] at *
    rw [diff_step_self]
    exact ih

theorem rowCellChanges_self (cols : List String) (uc : String) (r : Row) :
    rowCellChanges cols uc r r = [] := by
  simp [rowCellChanges, rowChanges_self]

theorem rowKeys_self (cols : List String) (uc : String) (r : Row) :
    rowKeys cols uc r r = [] := by
  simp [rowKeys, rowChanges_self]

theorem reconcileRows_self (cols : List String) (uc : String) (i : Nat)
    (rows : List Row) : reconcileRows cols uc i rows rows = .ok ([], []) := by
  induction rows generalizing i with
  | nil => rfl
  | cons r rs ih =>
    simp [reconcileRows, ih (i + 1), rowCellChanges_self, rowKeys_self]

theorem reconcileRows_ok (cols : List String) (uc : String) (os es : List Row)
    (i : Nat) (h : os.length ≤ es.length) :
    reconcileRows cols uc i os es =
      .ok ((os.zip es).flatMap (fun p => rowCellChanges cols uc p.1 p.2),
           (os.zip es).flatMap (fun p => rowKeys cols uc p.1 p.2)) := by
  induction os generalizing es i with
  | nil => simp [reconcileRows]
  | cons o os ih =>
    cases es with
    | nil => simp at h
    | cons e es =>
      have h2 : os.length ≤ es.length := by simpa using h
      simp [reconcileRows, ih es (i + 1) h2]

theorem reconcileRows_err (cols : List String) (uc : String) (os es : List Row)
    (i : Nat) (h : es.length < os.length) :
    reconcileRows cols uc i os es = .error (i + es.length) := by
  induction os generalizing es i with
  | nil => simp at h
  | cons o os ih =>
    cases es with
    | nil => simp [reconcileRows]
    | cons e es =>
      have h2 : es.length < os.length := by simpa using h
      simp [reconcileRows, ih es (i + 1) h2]
      omega

/-- The inner-loop step emits a column exactly when `cellChanged` holds. -/
theorem diff_step_eq (o e : Row) (c : String) :
    (if (o c).isna && (e c).isna then (none : Option (String × Value))
     else if pyNe (o c) (e c) then some (c, e c) else none) =
      (if cellChanged o e c then some (c, e c) else none) := by
  cases h1 : (o c).isna && (e c).isna <;> cases h2 : pyNe (o c) (e c) <;>
    simp [cellChanged, h1, h2]

theorem rowChanges_eq_filter (cols : List String) (o e : Row) :
    rowChanges cols o e =
      cols.filterMap (fun c => if cellChanged o e c then some (c, e c) else none) := by
  unfold rowChanges
  exact List.filterMap_congr fun c _ => diff_step_eq o e c

theorem mem_rowChanges (cols : List String) (o e : Row) (p : String × Value) :
    p ∈ rowChanges cols o e ↔
      p.1 ∈ cols ∧ cellChanged o e p.1 = true ∧ p.2 = e p.1 := by
  rw [rowChanges_eq_filter]
  simp only [List.mem_filterMap]
  constructor
  · rintro ⟨c, hc, hstep⟩
    by_cases h : cellChanged o e c = true
    · simp only [h, if_true, Option.some.injEq] at hstep
      cases hstep
      exact ⟨hc, h, rfl⟩
    · simp [h] at hstep
  · rintro ⟨h1, h2, h3⟩
    exact ⟨p.1, h1, by cases p; simp_all⟩

theorem mem_rowCellChanges (cols : List String) (uc : String) (o e : Row)
    (c : CellChange) :
    c ∈ rowCellChanges cols uc o e ↔
      c.key = o uc ∧ c.column ∈ cols ∧ cellChanged o e c.column = true ∧
        c.new_value = e c.column := by
  simp only [rowCellChanges, List.mem_map]
  constructor
  · rintro ⟨p, hp, rfl⟩
    have := (mem_rowChanges cols o e p).mp hp
    exact ⟨rfl, this.1, this.2.1, this.2.2⟩
  · rintro ⟨h0, h1, h2, h3⟩
    refine ⟨(c.column, c.new_value), (mem_rowChanges cols o e _).mpr ⟨h1, h2, h3⟩, ?_⟩
    cases c
    simp_all

/-- C2: reconciling any snapshot against itself yields no changes (and no
updated keys), whatever values — including missing ones — it contains. -/
theorem c2_reconcile_self_empty (S : Snapshot) (uc : String) :
    reconcile S S uc = .ok ([], []) :=
  reconcileRows_self S.cols uc 0 S.rows

/-- C3: for equal-length snapshots, the reconciler's output is the ordered
concatenation of the per-row-pair change lists, and a cell that is missing
(in either representation) in both the original and the edited row at one
row index is never among that row's reported changes. -/
theorem c3_both_null_not_reported (orig edit : Snapshot) (uc col : String)
    (i : Nat) (oi ei : Row) (cs : List CellChange) (ks : List Value)
    (hlen : orig.rows.length = edit.rows.length)
    (ho : orig.rows[i]? = some oi) (he : edit.rows[i]? = some ei)
    (h1 : (oi col).isna = true) (h2 : (ei col).isna = true)
    (hrec : reconcile orig edit uc = .ok (cs, ks)) :
    cs = (orig.rows.zip edit.rows).flatMap
          (fun p => rowCellChanges orig.cols uc p.1 p.2) ∧
      ∀ c ∈ rowCellChanges orig.cols uc oi ei, c.column ≠ col := by
  constructor
  · rw [reconcile, reconcileRows_ok orig.cols uc orig.rows edit.rows 0 (le_of_eq hlen)]
      at hrec
    exact (by simpa using hrec.symm : _ ∧ _).1
  · intro c hc hcol
    have := (mem_rowCellChanges orig.cols uc oi ei c).mp hc
    rw [hcol] at this
    simp [cellChanged, h1, h2] at this

/-- C4: for equal-length snapshots, the output decomposes row pair by row
pair, and every change a row pair contributes is keyed by the value the
ORIGINAL row holds in the unique column — in particular the key does not
come from the edited row, so it is unaffected when the unique column
itself was edited. -/
theorem c4_key_from_original (orig edit : Snapshot) (uc : String)
    (cs : List CellChange) (ks : List Value)
    (hlen : orig.rows.length = edit.rows.length)
    (hrec : reconcile orig edit uc = .ok (cs, ks)) :
    cs = (orig.rows.zip edit.rows).flatMap
          (fun p => rowCellChanges orig.cols uc p.1 p.2) ∧
      ∀ (o e : Row), ∀ c ∈ rowCellChanges orig.cols uc o e, c.key = o uc := by
  constructor
  · rw [reconcile, reconcileRows_ok orig.cols uc orig.rows edit.rows 0 (le_of_eq hlen)]
      at hrec
    exact (by simpa using hrec.symm : _ ∧ _).1
  · intro o e c hc
    exact ((mem_rowCellChanges orig.cols uc o e c).mp hc).1

theorem filterMap_fst_sublist (cols : List String)
    (f : String → Option (String × Value))
    (hf : ∀ c p, f c = some p → p.1 = c) :
    ((cols.filterMap f).map Prod.fst).Sublist cols := by
  induction cols with
  | nil => simp
  | cons c cs ih =>
    rw [List.filterMap_cons]
    cases h : f c with
    | none => exact (ih).cons c
    | some p =>
      rw [List.map_cons, hf c p h]
      exact (ih).cons₂ c

/-- C9: for equal-length snapshots the output is ordered: it is the
concatenation, in ascending row-index order, of the per-row-pair change
lists, and within one row pair the changed columns form a sublist of the
original snapshot's column order. -/
theorem c9_output_ordering (orig edit : Snapshot) (uc : String)
    (cs : List CellChange) (ks : List Value)
    (hlen : orig.rows.length = edit.rows.length)
    (hrec : reconcile orig edit uc = .ok (cs, ks)) :
    cs = (orig.rows.zip edit.rows).flatMap
          (fun p => rowCellChanges orig.cols uc p.1 p.2) ∧
      ∀ (o e : Row),
        ((rowCellChanges orig.cols uc o e).map CellChange.column).Sublist orig.cols := by
  constructor
  · rw [reconcile, reconcileRows_ok orig.cols uc orig.rows edit.rows 0 (le_of_eq hlen)]
      at hrec
    exact (by simpa using hrec.symm : _ ∧ _).1
  · intro o e
    have : (rowCellChanges orig.cols uc o e).map CellChange.column =
        (rowChanges orig.cols o e).map Prod.fst := by
      simp [rowCellChanges]
    rw [this, rowChanges_eq_filter]
    refine filterMap_fst_sublist orig.cols _ ?_
    intro c p hp
    by_cases h : cellChanged o e c = true <;> simp [h] at hp
    cases hp
    rfl

theorem flatMap_eq_nil_of_forall {α β : Type} (l : List α) (g : α → List β)
    (h : ∀ a ∈ l, g a = []) : l.flatMap g = [] := by
  induction l with
  | nil => rfl
  | cons a l ih =>
    rw [List.flatMap_cons, h a (List.mem_cons_self a l), List.nil_append]
    exact ih fun b hb => h b (List.mem_cons_of_mem a hb)

theorem flatMap_eq_single {α β : Type} (l : List α) (g : α → List β) (i : Nat)
    (x : α) (hx : l[i]? = some x)
    (hz : ∀ j y, j ≠ i → l[j]? = some y → g y = []) : l.flatMap g = g x := by
  induction l generalizing i with
  | nil => simp at hx
  | cons a l ih =>
    cases i with
    | zero =>
      simp only [List.getElem?_cons_zero, Option.some.injEq] at hx
      subst hx
      rw [List.flatMap_cons]
      have : l.flatMap g = [] := by
        refine flatMap_eq_nil_of_forall l g fun b hb => ?_
        obtain ⟨j, hj⟩ := List.mem_iff_getElem?.mp hb
        exact hz (j + 1) b (Nat.succ_ne_zero j) (by simpa using hj)
      rw [this, List.append_nil]
    | succ i =>
      simp only [List.getElem?_cons_succ] at hx
      rw [List.flatMap_cons, hz 0 a (by omega) (by simp), List.nil_append]
      exact ih i hx fun j y hj hy =>
        hz (j + 1) y (by omega) (by simpa using hy)

theorem filterMap_eq_single {α β : Type} [DecidableEq α] (l : List α)
    (f : α → Option β) (x : α) (v : β) (hnd : l.Nodup) (hm : x ∈ l)
    (hx : f x = some v) (hz : ∀ d ∈ l, d ≠ x → f d = none) :
    l.filterMap f = [v] := by
  induction l with
  | nil => simp at hm
  | cons a l ih =>
    by_cases hax : a = x
    · subst hax
      rw [List.filterMap_cons_some hx]
      have : l.filterMap f = [] := by
        rw [List.filterMap_eq_nil_iff]
        intro d hd
        refine hz d (List.mem_cons_of_mem a hd) ?_
        intro hdx
        subst hdx
        exact (List.nodup_cons.mp hnd).1 hd
      rw [this]
    · have hxl : x ∈ l := by
        cases List.mem_cons.mp hm with
        | inl h => exact absurd h.symm hax
        | inr h => exact h
      rw [List.filterMap_cons_none (hz a (List.mem_cons_self a l) hax)]
      exact ih (List.nodup_cons.mp hnd).2 hxl
        (fun d hd hne => hz d (List.mem_cons_of_mem a hd) hne)

/-- For a row pair in which every column is unchanged, the inner loop
records nothing. -/
theorem rowChanges_eq_nil (cols : List String) (o e : Row)
    (h : ∀ d ∈ cols, cellChanged o e d = false) :
    rowChanges cols o e = [] := by
  rw [rowChanges_eq_filter, List.filterMap_eq_nil_iff]
  intro d hd
  simp [h d hd]

/-- For a row pair whose only changed column is `col` (appearing once in
the column list), the inner loop records exactly that one cell. -/
theorem rowChanges_eq_single (cols : List String) (o e : Row) (col : String)
    (hnd : cols.Nodup) (hm : col ∈ cols) (hc : cellChanged o e col = true)
    (hz : ∀ d ∈ cols, d ≠ col → cellChanged o e d = false) :
    rowChanges cols o e = [(col, e col)] := by
  rw [rowChanges_eq_filter]
  refine filterMap_eq_single cols _ col (col, e col) hnd hm (by simp [hc]) ?_
  intro d hd hne
  simp [hz d hd hne]

/-- C5: if exactly one cell differs between two equal-length snapshots —
cell `col` of row `i`, every other position comparing as unchanged — then
the reconciler reports exactly one change: the original row's unique-column
value as key, the differing column, and the edited snapshot's new value
(and exactly one updated key). -/
theorem c5_single_cell_diff (orig edit : Snapshot) (uc col : String) (i : Nat)
    (oi ei : Row)
    (hnd : orig.cols.Nodup)
    (hlen : orig.rows.length = edit.rows.length)
    (ho : orig.rows[i]? = some oi) (he : edit.rows[i]? = some ei)
    (hm : col ∈ orig.cols)
    (hchg : cellChanged oi ei col = true)
    (hothers : ∀ j o e, orig.rows[j]? = some o → edit.rows[j]? = some e →
      ∀ d ∈ orig.cols, (j = i ∧ d = col) ∨ cellChanged o e d = false) :
    reconcile orig edit uc = .ok ([⟨oi uc, col, ei col⟩], [oi uc]) := by
  rw [reconcile, reconcileRows_ok orig.cols uc orig.rows edit.rows 0 (le_of_eq hlen)]
  have hzip : (orig.rows.zip edit.rows)[i]? = some (oi, ei) :=
    List.getElem?_zip_eq_some.mpr ⟨ho, he⟩
  have hrow_i : rowChanges orig.cols oi ei = [(col, ei col)] := by
    refine rowChanges_eq_single orig.cols oi ei col hnd hm hchg ?_
    intro d hd hne
    cases hothers i oi ei ho he d hd with
    | inl h => exact absurd h.2 hne
    | inr h => exact h
  have hrow_j : ∀ j p, j ≠ i → (orig.rows.zip edit.rows)[j]? = some p →
      rowChanges orig.cols p.1 p.2 = [] := by
    intro j p hj hp
    obtain ⟨h1, h2⟩ := List.getElem?_zip_eq_some.mp hp
    refine rowChanges_eq_nil orig.cols p.1 p.2 fun d hd => ?_
    cases hothers j p.1 p.2 h1 h2 d hd with
    | inl h => exact absurd h.1 hj
    | inr h => exact h
  have hcs : (orig.rows.zip edit.rows).flatMap
      (fun p => rowCellChanges orig.cols uc p.1 p.2) =
        [⟨oi uc, col, ei col⟩] := by
    rw [flatMap_eq_single _ _ i (oi, ei) hzip
      (fun j y hj hy => by simp [rowCellChanges, hrow_j j y hj hy])]
    simp [rowCellChanges, hrow_i]
  have hks : (orig.rows.zip edit.rows).flatMap
      (fun p => rowKeys orig.cols uc p.1 p.2) = [oi uc] := by
    rw [flatMap_eq_single _ _ i (oi, ei) hzip
      (fun j y hj hy => by simp [rowKeys, hrow_j j y hj hy])]
    simp [rowKeys, hrow_i]
  rw [hcs, hks]

/-! ### Lemmas about the apply phase -/

theorem execLoop_events_are_executes (execFail : Nat → Option String)
    (k : Nat) (ss : List Stmt) :
    ∀ ev ∈ (execLoop execFail k ss).1, ∃ s, ev = DbEvent.execute s := by
  induction ss generalizing k with
  | nil => simp [execLoop]
  | cons s ss ih =>
    intro ev hev
    simp only [execLoop] at hev
    cases h : execFail k with
    | some e => simp [h] at hev
    | none =>
      simp only [h] at hev
      cases List.mem_cons.mp hev with
      | inl h2 => exact ⟨s, h2⟩
      | inr h2 => exact ih (k + 1) ev h2

theorem execLoop_no_commit (execFail : Nat → Option String) (k : Nat)
    (ss : List Stmt) : DbEvent.commit ∉ (execLoop execFail k ss).1 := by
  intro h
  obtain ⟨s, hs⟩ := execLoop_events_are_executes execFail k ss DbEvent.commit h
  cases hs

theorem execLoop_events_of_ok (execFail : Nat → Option String) (k : Nat)
    (ss : List Stmt) (h : (execLoop execFail k ss).2 = none) :
    (execLoop execFail k ss).1 = ss.map DbEvent.execute := by
  induction ss generalizing k with
  | nil => rfl
  | cons s ss ih =>
    simp only [execLoop] at h ⊢
    cases hk : execFail k with
    | some e => simp [hk] at h
    | none =>
      simp only [hk] at h ⊢
      rw [List.map_cons, ih (k + 1) h]

/-- A trace that never commits makes nothing durable beyond what already
was: closing the connection discards all pending statements. -/
theorem committedStmts_of_no_commit (evs : List DbEvent) (durable pending : List Stmt)
    (h : DbEvent.commit ∉ evs) : committedStmts evs durable pending = durable := by
  induction evs generalizing pending with
  | nil => rfl
  | cons ev evs ih =>
    have h1 : ev ≠ DbEvent.commit := fun he => h (he ▸ List.mem_cons_self ev evs)
    have h2 : DbEvent.commit ∉ evs := fun he => h (List.mem_cons_of_mem ev he)
    cases ev with
    | execute s => exact ih (pending ++ [s]) h2
    | commit => exact absurd rfl h1
    | openConn => exact ih pending h2
    | closeConn => exact ih pending h2
    | openCursor => exact ih pending h2
    | closeCursor => exact ih pending h2
    | query sql => exact ih pending h2
    | ddl sql => exact ih pending h2

/-- C1: when some `UPDATE` of a non-empty batch fails, the operation emits
exactly one error message, performs no commit, and — under the
transactional session model — leaves the database untouched: no cell
change of the call becomes durable. -/
theorem c1_failed_batch_atomic (orig edit : Snapshot) (table uc : String)
    (execFail : Nat → Option String) (commitFail : Option String)
    (changes : List CellChange) (keys : List Value) (e : String)
    (hrec : reconcile orig edit uc = .ok (changes, keys))
    (hfail : (execLoop execFail 0 (changes.map (toStmt table uc))).2 = some e) :
    (update_changed_cells orig edit table uc execFail commitFail).msgs = [Msg.err e] ∧
    DbEvent.commit ∉ (update_changed_cells orig edit table uc execFail commitFail).events ∧
    committedStmts (update_changed_cells orig edit table uc execFail commitFail).events [] [] = [] := by
  have hne : changes ≠ [] := by
    intro h
    subst h
    simp [execLoop] at hfail
  have hR : update_changed_cells orig edit table uc execFail commitFail =
      ⟨[Msg.err e],
       [DbEvent.openConn, DbEvent.openCursor]
         ++ (execLoop execFail 0 (changes.map (toStmt table uc))).1
         ++ [DbEvent.closeCursor, DbEvent.closeConn], none⟩ := by
    unfold update_changed_cells
    rw [hrec]
    simp only [if_neg hne]
    rw [hfail]
  rw [hR]
  have hnc : DbEvent.commit ∉
      ([DbEvent.openConn, DbEvent.openCursor]
        ++ (execLoop execFail 0 (changes.map (toStmt table uc))).1
        ++ [DbEvent.closeCursor, DbEvent.closeConn]) := by
    intro h
    rcases List.mem_append.mp h with h | h
    · rcases List.mem_append.mp h with h | h
      · simp at h
      · exact execLoop_no_commit execFail 0 _ h
    · simp at h
  exact ⟨rfl, hnc, committedStmts_of_no_commit _ [] [] hnc⟩

/-- C6: when the diff finds no changed cell, the whole call performs no
database work at all, raises nothing, and reports only the informational
no-changes message — never an error. -/
theorem c6_empty_changes_noop (orig edit : Snapshot) (table uc : String)
    (execFail : Nat → Option String) (commitFail : Option String)
    (keys : List Value)
    (hrec : reconcile orig edit uc = .ok ([], keys)) :
    update_changed_cells orig edit table uc execFail commitFail =
      ⟨[Msg.info "No changes to save."], [], none⟩ ∧
    ∀ s, Msg.err s ∉ (update_changed_cells orig edit table uc execFail commitFail).msgs := by
  have hR : update_changed_cells orig edit table uc execFail commitFail =
      ⟨[Msg.info "No changes to save."], [], none⟩ := by
    unfold update_changed_cells
    rw [hrec]
    simp
  rw [hR]
  exact ⟨rfl, by simp⟩

/-- One row pair contributes its key to `updated_keys` exactly when it
contributes at least one change, and every change it contributes carries
that same key. -/
theorem rowKeys_mem_iff (cols : List String) (uc : String) (o e : Row) (v : Value) :
    v ∈ rowKeys cols uc o e ↔
      v ∈ (rowCellChanges cols uc o e).map CellChange.key := by
  unfold rowKeys rowCellChanges
  cases h : rowChanges cols o e with
  | nil => simp
  | cons q qs =>
    constructor
    · intro hv
      have hv2 : v = o uc := by simpa using hv
      subst hv2
      simp [List.mem_map]
    · intro hv
      have hv2 : v = o uc := by
        simp only [List.map_map, List.mem_map, Function.comp] at hv
        obtain ⟨p, _, hpv⟩ := hv
        exact hpv.symm
      subst hv2
      simp

theorem keys_mem_iff (cols : List String) (uc : String) (l : List (Row × Row))
    (v : Value) :
    v ∈ l.flatMap (fun p => rowKeys cols uc p.1 p.2) ↔
      v ∈ (l.flatMap (fun p => rowCellChanges cols uc p.1 p.2)).map CellChange.key := by
  induction l with
  | nil => simp
  | cons p l ih =>
    simp only [List.flatMap_cons, List.map_append, List.mem_append, ih,
      rowKeys_mem_iff]

theorem dedup_length_eq_of_mem_iff {α : Type} [DecidableEq α] (l1 l2 : List α)
    (h : ∀ v, v ∈ l1 ↔ v ∈ l2) : l1.dedup.length = l2.dedup.length := by
  have hp : l1.dedup.Perm l2.dedup :=
    (List.perm_ext_iff_of_nodup (List.nodup_dedup l1) (List.nodup_dedup l2)).mpr
      (by simp [List.mem_dedup, h])
  exact hp.length_eq

/-- C7: a fully successful non-empty batch reports as its count the number
of DISTINCT unique-column keys among the changes — not the number of
changes — and performs exactly one parameterized `UPDATE` per change
(setting that change's column to its new value where the unique column
equals its key), followed by a single commit. -/
theorem c7_success_reports_distinct_keys (orig edit : Snapshot)
    (table uc : String) (execFail : Nat → Option String)
    (changes : List CellChange) (keys : List Value)
    (hlen : orig.rows.length = edit.rows.length)
    (hrec : reconcile orig edit uc = .ok (changes, keys))
    (hne : changes ≠ [])
    (hok : (execLoop execFail 0 (changes.map (toStmt table uc))).2 = none) :
    (update_changed_cells orig edit table uc execFail none).msgs =
      [Msg.success ((changes.map CellChange.key).dedup.length)] ∧
    (update_changed_cells orig edit table uc execFail none).events =
      [DbEvent.openConn, DbEvent.openCursor]
        ++ changes.map (fun c => DbEvent.execute (toStmt table uc c))
        ++ [DbEvent.commit, DbEvent.closeCursor, DbEvent.closeConn] := by
  have hcount : keys.dedup.length = (changes.map CellChange.key).dedup.length := by
    have hdecomp := hrec
    rw [reconcile, reconcileRows_ok orig.cols uc orig.rows edit.rows 0
      (le_of_eq hlen)] at hdecomp
    have hcs : changes = (orig.rows.zip edit.rows).flatMap
        (fun p => rowCellChanges orig.cols uc p.1 p.2) :=
      (by simpa using hdecomp.symm : _ ∧ _).1
    have hks : keys = (orig.rows.zip edit.rows).flatMap
        (fun p => rowKeys orig.cols uc p.1 p.2) :=
      (by simpa using hdecomp.symm : _ ∧ _).2
    refine dedup_length_eq_of_mem_iff keys (changes.map CellChange.key) fun v => ?_
    rw [hcs, hks]
    exact keys_mem_iff orig.cols uc (orig.rows.zip edit.rows) v
  have hevs : (execLoop execFail 0 (changes.map (toStmt table uc))).1 =
      changes.map (fun c => DbEvent.execute (toStmt table uc c)) := by
    rw [execLoop_events_of_ok execFail 0 _ hok, List.map_map]
    rfl
  have hR : update_changed_cells orig edit table uc execFail none =
      ⟨[Msg.success keys.dedup.length],
       [DbEvent.openConn, DbEvent.openCursor]
         ++ (execLoop execFail 0 (changes.map (toStmt table uc))).1
         ++ [DbEvent.commit, DbEvent.closeCursor, DbEvent.closeConn], none⟩ := by
    unfold update_changed_cells
    rw [hrec]
    simp only [if_neg hne]
    rw [hok]
  rw [hR, hcount, hevs]
  exact ⟨rfl, rfl⟩

/-- The displayed page never exceeds the page size. -/
theorem df1_page_length_le (rows : List Row) (page : Nat) :
    (df1_page rows page).length ≤ rows_per_page := by
  simp [df1_page]

/-- C10: the save button hands the reconciler the FULL filtered snapshot as
original but only the displayed page (at most `rows_per_page` rows, with
matching edited length) as edited; whenever the filter leaves more rows
than one page, the positional lookup fails with a `KeyError` at the first
index beyond the page — nothing is saved and no message is shown. -/
theorem c10_save_crashes_beyond_page (filtered : Snapshot) (page : Nat)
    (editedRows : List Row) (execFail : Nat → Option String)
    (commitFail : Option String)
    (hlen : editedRows.length = (df1_page filtered.rows page).length)
    (hmore : rows_per_page < filtered.rows.length) :
    saveAction filtered editedRows execFail commitFail =
      ⟨[], [], some (.keyError editedRows.length)⟩ ∧
    editedRows.length ≤ rows_per_page := by
  have hle : editedRows.length ≤ rows_per_page :=
    hlen ▸ df1_page_length_le filtered.rows page
  have hlt : editedRows.length < filtered.rows.length :=
    Nat.lt_of_le_of_lt hle hmore
  refine ⟨?_, hle⟩
  unfold saveAction update_changed_cells
  rw [show reconcile filtered ⟨filtered.cols, editedRows⟩ "CODE" =
      .error editedRows.length by
    rw [reconcile, reconcileRows_err _ _ _ _ 0 hlt]
    simp]

theorem execLoop_count_conn (execFail : Nat → Option String) (k : Nat)
    (ss : List Stmt) :
    (execLoop execFail k ss).1.count DbEvent.openConn = 0 ∧
    (execLoop execFail k ss).1.count DbEvent.closeConn = 0 := by
  constructor <;> rw [List.count_eq_zero] <;> intro h <;>
    obtain ⟨s, hs⟩ := execLoop_events_are_executes execFail k ss _ h <;> cases hs

/-- C8 counterexample: a failing full-table read opens a connection and
never closes it — `get_data` has no try/finally, so the exception skips
`conn.close()` and the connection is left open on the failure exit path. -/
theorem c8_read_failure_leaks_connection :
    DbEvent.openConn ∈ (get_data "SampleTest" (some "connection lost")).events ∧
    DbEvent.closeConn ∉ (get_data "SampleTest" (some "connection lost")).events ∧
    (get_data "SampleTest" (some "connection lost")).raised ≠ none := by
  decide

/-- C8 amended: each operation that touches the database opens its own
fresh connection (never more than one per call, none shared between
calls).  The batch update and the add-column close it on every exit path,
success or driver failure; the table read closes it only when the query
succeeds — its failure path leaks the connection
(`c8_read_failure_leaks_connection`). -/
theorem c8_scoped_connections :
    (∀ (orig edit : Snapshot) (table uc : String)
        (execFail : Nat → Option String) (commitFail : Option String),
      (update_changed_cells orig edit table uc execFail commitFail).events.count
          DbEvent.openConn =
        (update_changed_cells orig edit table uc execFail commitFail).events.count
          DbEvent.closeConn ∧
      (update_changed_cells orig edit table uc execFail commitFail).events.count
          DbEvent.openConn ≤ 1) ∧
    (∀ (table col : String) (execFail commitFail : Option String),
      (add_column_to_snowflake table col execFail commitFail).events.count
          DbEvent.openConn = 1 ∧
      (add_column_to_snowflake table col execFail commitFail).events.count
          DbEvent.closeConn = 1) ∧
    (∀ table : String,
      (get_data table none).events.count DbEvent.openConn = 1 ∧
      (get_data table none).events.count DbEvent.closeConn = 1) := by
  refine ⟨?_, ?_, ?_⟩
  · intro orig edit table uc execFail commitFail
    unfold update_changed_cells
    cases hrec : reconcile orig edit uc with
    | error i => simp
    | ok p =>
      obtain ⟨changes, keys⟩ := p
      by_cases hne : changes = []
      · simp [hne]
      · simp only [if_neg hne]
        obtain ⟨h1, h2⟩ := execLoop_count_conn execFail 0
          (changes.map (toStmt table uc))
        cases hf : (execLoop execFail 0 (changes.map (toStmt table uc))).2 with
        | some e => simp [List.count_append, List.count_cons, h1, h2]
        | none =>
          cases commitFail with
          | some e => simp [hf, List.count_append, List.count_cons, h1, h2]
          | none => simp [hf, List.count_append, List.count_cons, h1, h2]
  · intro table col execFail commitFail
    unfold add_column_to_snowflake
    cases execFail with
    | some e => simp [List.count_cons]
    | none =>
      cases commitFail with
      | some e => simp [List.count_cons]
      | none => simp [List.count_cons]
  · intro table
    simp [get_data, List.count_cons]

/-! ### Concrete rows for witness instances -/

/-- Row `{CODE: "A1", NAME: "foo"}` of the spec's scenario. -/
def rowA1foo : Row := fun c =>
  if c = "CODE" then .str "A1" else if c = "NAME" then .str "foo" else .nan

/-- Row `{CODE: "A1", NAME: "bar"}` of the spec's scenario. -/
def rowA1bar : Row := fun c =>
  if c = "CODE" then .str "A1" else if c = "NAME" then .str "bar" else .nan

/-- Row `{CODE: "A2", NAME: "bar"}`: the unique column itself edited. -/
def rowA2bar : Row := fun c =>
  if c = "CODE" then .str "A2" else if c = "NAME" then .str "bar" else .nan

/-- Row `{K: "k1", X: NaN}`: missing cell as float NaN. -/
def rowKXnan : Row := fun c =>
  if c = "K" then .str "k1" else .nan

/-- Row `{K: "k1", X: None}`: the same missing cell as Python `None`. -/
def rowKXnull : Row := fun c =>
  if c = "K" then .str "k1" else .null

/-- Witness for C1: a one-change batch whose single `UPDATE` fails emits
exactly the one error message, never commits, and nothing becomes
durable. -/
theorem c1_witness :
    (update_changed_cells ⟨["CODE", "NAME"], [rowA1foo]⟩
        ⟨["CODE", "NAME"], [rowA1bar]⟩ "SampleTest" "CODE"
        (fun k => if k = 0 then some "boom" else none) none).msgs =
      [Msg.err "boom"] ∧
    DbEvent.commit ∉ (update_changed_cells ⟨["CODE", "NAME"], [rowA1foo]⟩
        ⟨["CODE", "NAME"], [rowA1bar]⟩ "SampleTest" "CODE"
        (fun k => if k = 0 then some "boom" else none) none).events ∧
    committedStmts (update_changed_cells ⟨["CODE", "NAME"], [rowA1foo]⟩
        ⟨["CODE", "NAME"], [rowA1bar]⟩ "SampleTest" "CODE"
        (fun k => if k = 0 then some "boom" else none) none).events [] [] = [] :=
  c1_failed_batch_atomic ⟨["CODE", "NAME"], [rowA1foo]⟩
    ⟨["CODE", "NAME"], [rowA1bar]⟩ "SampleTest" "CODE"
    (fun k => if k = 0 then some "boom" else none) none
    [⟨Value.str "A1", "NAME", Value.str "bar"⟩] [Value.str "A1"] "boom" rfl rfl

/-- Witness for C3: a cell stored as NaN in the original and as `None` in
the edited snapshot is skipped — the row reports no change for it. -/
theorem c3_witness :
    ([] : List CellChange) =
      ((Snapshot.mk ["K", "X"] [rowKXnan]).rows.zip
          (Snapshot.mk ["K", "X"] [rowKXnull]).rows).flatMap
        (fun p => rowCellChanges (Snapshot.mk ["K", "X"] [rowKXnan]).cols "K" p.1 p.2) ∧
    ∀ c ∈ rowCellChanges (Snapshot.mk ["K", "X"] [rowKXnan]).cols "K" rowKXnan rowKXnull,
      c.column ≠ "X" :=
  c3_both_null_not_reported ⟨["K", "X"], [rowKXnan]⟩ ⟨["K", "X"], [rowKXnull]⟩
    "K" "X" 0 rowKXnan rowKXnull [] [] rfl rfl rfl rfl rfl rfl

/-- Witness for C4: even though the edited row changed the unique column
`CODE` from `A1` to `A2`, every reported change is keyed by the original
value. -/
theorem c4_witness :
    [⟨Value.str "A1", "CODE", Value.str "A2"⟩,
     ⟨Value.str "A1", "NAME", Value.str "bar"⟩] =
      ((Snapshot.mk ["CODE", "NAME"] [rowA1foo]).rows.zip
          (Snapshot.mk ["CODE", "NAME"] [rowA2bar]).rows).flatMap
        (fun p => rowCellChanges (Snapshot.mk ["CODE", "NAME"] [rowA1foo]).cols
          "CODE" p.1 p.2) ∧
    ∀ (o e : Row), ∀ c ∈ rowCellChanges
        (Snapshot.mk ["CODE", "NAME"] [rowA1foo]).cols "CODE" o e,
      c.key = o "CODE" :=
  c4_key_from_original ⟨["CODE", "NAME"], [rowA1foo]⟩
    ⟨["CODE", "NAME"], [rowA2bar]⟩ "CODE"
    [⟨Value.str "A1", "CODE", Value.str "A2"⟩,
     ⟨Value.str "A1", "NAME", Value.str "bar"⟩] [Value.str "A1"] rfl rfl

/-- Witness for C5: the spec's scenario — original row
`{CODE: "A1", NAME: "foo"}`, edited row `{CODE: "A1", NAME: "bar"}` —
yields exactly `[{key: "A1", column: "NAME", new_value: "bar"}]`. -/
theorem c5_witness :
    reconcile ⟨["CODE", "NAME"], [rowA1foo]⟩ ⟨["CODE", "NAME"], [rowA1bar]⟩
        "CODE" =
      .ok ([⟨Value.str "A1", "NAME", Value.str "bar"⟩], [Value.str "A1"]) :=
  c5_single_cell_diff ⟨["CODE", "NAME"], [rowA1foo]⟩
    ⟨["CODE", "NAME"], [rowA1bar]⟩ "CODE" "NAME" 0 rowA1foo rowA1bar
    (by decide) rfl rfl rfl (by decide) (by decide)
    (by
      intro j o e ho he d hd
      match j with
      | 0 =>
        obtain rfl : o = rowA1foo := by simpa using ho.symm
        obtain rfl : e = rowA1bar := by simpa using he.symm
        simp only [List.mem_cons, List.not_mem_nil, or_false] at hd
        rcases hd with rfl | rfl
        · exact Or.inr (by decide)
        · exact Or.inl ⟨rfl, rfl⟩
      | j + 1 => simp at ho)

/-- Witness for C6: identical snapshots produce no changes, so the call
emits only the info message, touches no connection, and raises nothing. -/
theorem c6_witness :
    update_changed_cells ⟨["CODE", "NAME"], [rowA1foo]⟩
        ⟨["CODE", "NAME"], [rowA1foo]⟩ "SampleTest" "CODE"
        (fun _ => none) none =
      ⟨[Msg.info "No changes to save."], [], none⟩ ∧
    ∀ s, Msg.err s ∉ (update_changed_cells ⟨["CODE", "NAME"], [rowA1foo]⟩
        ⟨["CODE", "NAME"], [rowA1foo]⟩ "SampleTest" "CODE"
        (fun _ => none) none).msgs :=
  c6_empty_changes_noop ⟨["CODE", "NAME"], [rowA1foo]⟩
    ⟨["CODE", "NAME"], [rowA1foo]⟩ "SampleTest" "CODE" (fun _ => none) none
    [] rfl

/-- Witness for C7: a successful batch of two changes to the same row
(`CODE` and `NAME` both edited, one distinct key `A1`) reports `1` — the
distinct-key count, not the change count `2` — and runs one parameterized
`UPDATE` per change plus one commit. -/
theorem c7_witness :
    (update_changed_cells ⟨["CODE", "NAME"], [rowA1foo]⟩
        ⟨["CODE", "NAME"], [rowA2bar]⟩ "SampleTest" "CODE"
        (fun _ => none) none).msgs =
      [Msg.success (([⟨Value.str "A1", "CODE", Value.str "A2"⟩,
        ⟨Value.str "A1", "NAME", Value.str "bar"⟩].map CellChange.key).dedup.length)] ∧
    (update_changed_cells ⟨["CODE", "NAME"], [rowA1foo]⟩
        ⟨["CODE", "NAME"], [rowA2bar]⟩ "SampleTest" "CODE"
        (fun _ => none) none).events =
      [DbEvent.openConn, DbEvent.openCursor]
        ++ [⟨Value.str "A1", "CODE", Value.str "A2"⟩,
            ⟨Value.str "A1", "NAME", Value.str "bar"⟩].map
          (fun c => DbEvent.execute (toStmt "SampleTest" "CODE" c))
        ++ [DbEvent.commit, DbEvent.closeCursor, DbEvent.closeConn] :=
  c7_success_reports_distinct_keys ⟨["CODE", "NAME"], [rowA1foo]⟩
    ⟨["CODE", "NAME"], [rowA2bar]⟩ "SampleTest" "CODE" (fun _ => none)
    [⟨Value.str "A1", "CODE", Value.str "A2"⟩,
     ⟨Value.str "A1", "NAME", Value.str "bar"⟩] [Value.str "A1"]
    rfl rfl (by decide) rfl

/-- Witness for C9: in the spec's scenario the output equals the per-row
concatenation and each row's changed columns follow the original column
order. -/
theorem c9_witness :
    [(⟨Value.str "A1", "NAME", Value.str "bar"⟩ : CellChange)] =
      ((Snapshot.mk ["CODE", "NAME"] [rowA1foo]).rows.zip
          (Snapshot.mk ["CODE", "NAME"] [rowA1bar]).rows).flatMap
        (fun p => rowCellChanges (Snapshot.mk ["CODE", "NAME"] [rowA1foo]).cols
          "CODE" p.1 p.2) ∧
    ∀ (o e : Row),
      ((rowCellChanges (Snapshot.mk ["CODE", "NAME"] [rowA1foo]).cols "CODE" o e).map
          CellChange.column).Sublist
        (Snapshot.mk ["CODE", "NAME"] [rowA1foo]).cols :=
  c9_output_ordering ⟨["CODE", "NAME"], [rowA1foo]⟩
    ⟨["CODE", "NAME"], [rowA1bar]⟩ "CODE"
    [⟨Value.str "A1", "NAME", Value.str "bar"⟩] [Value.str "A1"] rfl rfl

/-- Witness for C10: four filtered rows, page 0 displayed (3 rows), edited
grid data of 3 rows — saving raises `KeyError` at index 3, the first index
beyond the page. -/
theorem c10_witness :
    saveAction ⟨["CODE", "NAME"], [rowA1foo, rowA1foo, rowA1foo, rowA1foo]⟩
        [rowA1bar, rowA1bar, rowA1bar] (fun _ => none) none =
      ⟨[], [], some (.keyError 3)⟩ ∧
    ([rowA1bar, rowA1bar, rowA1bar] : List Row).length ≤ rows_per_page := by
  have h := c10_save_crashes_beyond_page
    ⟨["CODE", "NAME"], [rowA1foo, rowA1foo, rowA1foo, rowA1foo]⟩ 0
    [rowA1bar, rowA1bar, rowA1bar] (fun _ => none) none rfl (by decide)
  simpa using h
